import Mathlib

/-!
Shallow embedding of the application-slide generator
(`src/masters/slide_generator.py`): the name normalizer, the fuzzy
matcher, the criteria evaluator and the reconciliation driver, together
with theorems settling the specification claims about them.

Strings are modelled as Lean `String`s (lists of unicode characters);
Python character-class tests are expressed arithmetically on code points.
-/

/-- True for the characters matched by Python's `\s` in the ASCII range:
space, tab, newline, carriage return, vertical tab, form feed and the
four separator control characters 0x1c-0x1f. -/
def isPyWs (c : Char) : Bool :=
  c.toNat = 32 || (9 ≤ c.toNat && c.toNat ≤ 13) || (28 ≤ c.toNat && c.toNat ≤ 31)

def isAsciiLowerAlpha (c : Char) : Bool :=
  97 ≤ c.toNat && c.toNat ≤ 122

def isAsciiUpperAlpha (c : Char) : Bool :=
  65 ≤ c.toNat && c.toNat ≤ 90

def isAsciiDigit (c : Char) : Bool :=
  48 ≤ c.toNat && c.toNat ≤ 57

/-- ASCII lower-casing of one character, as Python `str.lower` acts on the
ASCII text this pipeline produces. -/
def asciiLowerChar (c : Char) : Char :=
  if isAsciiUpperAlpha c then Char.ofNat (c.toNat + 32) else c

/-- ASCII upper-casing of one character, as Python `str.upper` acts on the
ASCII text this pipeline produces. -/
def asciiUpperChar (c : Char) : Char :=
  if isAsciiLowerAlpha c then Char.ofNat (c.toNat - 32) else c

/-- The translation table `str.maketrans("₀₁₂₃₄₅₆₇₈₉", " " * 10)` of
`normalize_string`: subscript digits U+2080-U+2089 become spaces. -/
def subscriptTranslateChar (c : Char) : Char :=
  if 8320 ≤ c.toNat && c.toNat ≤ 8329 then ' ' else c

/-- Model of the `unidecode` transliteration called by `normalize_string`:
the identity on ASCII, common Latin letters with diacritics mapped to
their base letter, and any other character dropped (`unidecode` renders
characters without a table entry as the empty string). -/
def unidecodeChar (c : Char) : List Char :=
  if c.toNat < 128 then [c]
  else if c = 'á' || c = 'à' || c = 'â' || c = 'ä' || c = 'ã' then ['a']
  else if c = 'é' || c = 'è' || c = 'ê' || c = 'ë' then ['e']
  else if c = 'í' || c = 'ì' || c = 'î' || c = 'ï' then ['i']
  else if c = 'ó' || c = 'ò' || c = 'ô' || c = 'ö' || c = 'õ' then ['o']
  else if c = 'ú' || c = 'ù' || c = 'û' || c = 'ü' then ['u']
  else if c = 'ñ' then ['n']
  else if c = 'ç' then ['c']
  else if c = 'Á' || c = 'À' || c = 'Â' || c = 'Ä' || c = 'Ã' then ['A']
  else if c = 'É' || c = 'È' || c = 'Ê' || c = 'Ë' then ['E']
  else if c = 'Í' || c = 'Ì' || c = 'Î' || c = 'Ï' then ['I']
  else if c = 'Ó' || c = 'Ò' || c = 'Ô' || c = 'Ö' || c = 'Õ' then ['O']
  else if c = 'Ú' || c = 'Ù' || c = 'Û' || c = 'Ü' then ['U']
  else if c = 'Ñ' then ['N']
  else if c = 'Ç' then ['C']
  else if c = 'ß' then ['s', 's']
  else []

/-- `startsWithL pat l` holds when `pat` is an initial segment of `l`. -/
def startsWithL : List Char → List Char → Bool
  | [], _ => true
  | _ :: _, [] => false
  | p :: ps, c :: cs => p == c && startsWithL ps cs

/-- Python's substring test `pat in l`. -/
def containsSub (pat : List Char) : List Char → Bool
  | [] => startsWithL pat []
  | c :: cs => startsWithL pat (c :: cs) || containsSub pat cs

/-- Substring test on strings, Python `pat in s`. -/
def pyContains (pat s : String) : Bool :=
  containsSub pat.data s.data

/-- One step of `re.sub(r"\s*\([^)]*\)\s*", " ", text)`: scan left to
right; at the first position where optional whitespace is followed by a
parenthesized group, replace the whole span (including trailing
whitespace) by a single space and continue after it.  The fuel argument
is an upper bound on the number of scanning steps; each step consumes at
least one character, so `l.length` fuel always suffices. -/
def remParenGo : Nat → List Char → List Char
  | _, [] => []
  | Nat.succ fuel, c :: cs =>
    let rest := List.dropWhile isPyWs (c :: cs)
    match rest with
    | '(' :: r2 =>
      if r2.any (fun d => d = ')') then
        let afterParen := List.drop 1 (List.dropWhile (fun d => d ≠ ')') r2)
        ' ' :: remParenGo fuel (List.dropWhile isPyWs afterParen)
      else c :: remParenGo fuel cs
    | _ => c :: remParenGo fuel cs
  | 0, l => l

/-- `re.sub(r"\s*\([^)]*\)\s*", " ", text)` of `normalize_string`. -/
def remParen (l : List Char) : List Char :=
  remParenGo l.length l

/-- One scanning pass of Python `str.replace(pat, "")`: non-overlapping
occurrences removed left to right.  Fuel bounds the number of steps. -/
def replaceAllGo (pat : List Char) : Nat → List Char → List Char
  | _, [] => []
  | Nat.succ fuel, c :: cs =>
    if startsWithL pat (c :: cs) then
      replaceAllGo pat fuel (List.drop pat.length (c :: cs))
    else c :: replaceAllGo pat fuel cs
  | 0, l => l

/-- Python `text.replace(pat, "")` (deletion of every non-overlapping
occurrence, scanning left to right). -/
def pyReplaceDel (pat l : List Char) : List Char :=
  if pat = [] then l else replaceAllGo pat l.length l

/-- Python `str.strip()`: drop whitespace from both ends. -/
def pyStrip (l : List Char) : List Char :=
  ((l.dropWhile isPyWs).reverse.dropWhile isPyWs).reverse

/-- Worker for `re.sub(r"\s+", " ", text)`: a maximal whitespace run is
replaced by a single space; the flag records whether the previous
character was whitespace (in which case further whitespace is skipped). -/
def collapseWsGo : Bool → List Char → List Char
  | _, [] => []
  | prevWs, c :: cs =>
    if isPyWs c then
      if prevWs then collapseWsGo true cs
      else ' ' :: collapseWsGo true cs
    else c :: collapseWsGo false cs

/-- `re.sub(r"\s+", " ", text)` of `normalize_string`. -/
def collapseWs (l : List Char) : List Char :=
  collapseWsGo false l

/-- The character class kept by `re.sub(r"[^a-z0-9\s-]", "", text)`. -/
def isAllowedOrWs (c : Char) : Bool :=
  isAsciiLowerAlpha c || isAsciiDigit c || isPyWs c || c = '-'

/-- The noise phrases deleted by `normalize_string`, in source order. -/
def noiseWords : List (List Char) :=
  ["incluida en venta".data, "tsa".data, "no tsa".data]

/-- `normalize_string` from `src/masters/slide_generator.py`: subscript
digits become spaces, the text is transliterated to ASCII and
lower-cased, parenthesized groups are replaced by a space, the noise
phrases are deleted, characters outside `[a-z0-9\s-]` are removed, and
whitespace is trimmed and collapsed.  (Non-string input returns `""` in
the source; the embedding takes strings only.) -/
def normalize_string (text : String) : String :=
  let t0 := text.data.map subscriptTranslateChar
  let t1 := (t0.map unidecodeChar).flatten
  let t2 := t1.map asciiLowerChar
  let t3 := remParen t2
  let t4 := noiseWords.foldl (fun acc w => pyReplaceDel w acc) t3
  let t5 := t4.filter isAllowedOrWs
  let t6 := pyStrip t5
  String.mk (collapseWs t6)

example : normalize_string "Hello   World" = "hello world" := by decide
example : normalize_string "Portal Clientes" = "portal clientes" := by decide
example : normalize_string "Núcleo (core) Bancario" = "nucleo bancario" := by decide
example : normalize_string "App TSA x₂" = "app x" := by decide
example : normalize_string "ttsasa" = "tsa" := by decide
example : normalize_string "tsa" = "" := by decide

/-- Python `str.lower()` on the ASCII text handled by the evaluator. -/
def pyLower (s : String) : String :=
  String.mk (s.data.map asciiLowerChar)

/-- Python `str.upper()` on the ASCII text handled by the evaluator. -/
def pyUpper (s : String) : String :=
  String.mk (s.data.map asciiUpperChar)

/-- Worker for Python `str.title()`: a letter is upper-cased when the
previous character is not a letter and lower-cased otherwise. -/
def pyTitleGo : Bool → List Char → List Char
  | _, [] => []
  | prevAlpha, c :: cs =>
    if isAsciiLowerAlpha c || isAsciiUpperAlpha c then
      (if prevAlpha then asciiLowerChar c else asciiUpperChar c) :: pyTitleGo true cs
    else c :: pyTitleGo false cs

/-- Python `str.title()` on the ASCII text handled by the evaluator. -/
def pyTitle (s : String) : String :=
  String.mk (pyTitleGo false s.data)

/-- Lookup in a Python dict modelled as an association list (keys are
unique in every dict the program builds; the first binding wins). -/
def alookup {β : Type} (k : String) : List (String × β) → Option β
  | [] => none
  | (k2, v) :: rest => if k = k2 then some v else alookup k rest

/-- Python string strip on `String`. -/
def pyStripStr (s : String) : String :=
  String.mk (pyStrip s.data)

/-- `get_value_from_row` from `src/masters/slide_generator.py`: `None`
when the column name is falsy or absent from the row, otherwise the cell
value as a stripped string (a row is modelled as an association list of
column name to cell text; a `NaN` cell is an absent binding, and for
duplicated columns the first occurrence is taken, as `value.iloc[0]`
does). -/
def get_value_from_row (row : List (String × String)) (col_name : Option String) : Option String :=
  match col_name with
  | none => none
  | some c => if c = "" then none else (alookup c row).map pyStripStr

/-- Rule 1 (OBSOLESCENCIA) of `evaluar_criterios`: no data or `"0"` gives
the empty verdict; otherwise the lower-cased value containing
`"no obsoleto"` gives `Cumple`, containing `"obsoleto"` gives
`No Cumple`, anything else the empty verdict. -/
def obsVerdict (v : Option String) : String :=
  match v with
  | none => ""
  | some s =>
    if s = "" || s = "0" then ""
    else
      let valor_lower := pyLower s
      if pyContains "no obsoleto" valor_lower then "Cumple"
      else if pyContains "obsoleto" valor_lower then "No Cumple"
      else ""

/-- Rule 2 (ESCALABILIDAD) of `evaluar_criterios`: upper-cased `"SI"`
gives `Cumple`, `"NO"` gives `No Cumple`, anything else (and no data)
the empty verdict. -/
def escVerdict (v : Option String) : String :=
  match v with
  | none => ""
  | some s =>
    if s = "" then ""
    else
      let valor_upper := pyUpper s
      if valor_upper = "SI" then "Cumple"
      else if valor_upper = "NO" then "No Cumple"
      else ""

/-- Rule 4 (ESTABILIDAD) of `evaluar_criterios`: no data or `"0"` gives
the empty verdict; upper-cased `"SI"` gives `No Cumple`, `"NO"` gives
`Cumple`, anything else the empty verdict. -/
def estVerdict (v : Option String) : String :=
  match v with
  | none => ""
  | some s =>
    if s = "" || s = "0" then ""
    else
      let valor_upper := pyUpper s
      if valor_upper = "SI" then "No Cumple"
      else if valor_upper = "NO" then "Cumple"
      else ""

/-- Rule 5 (EXTENSIBILIDAD) of `evaluar_criterios`: title-cased
`"Cumple"` gives `Cumple`, `"Parcialmente"` gives `Parcialmente`,
anything else (and no data) the empty verdict. -/
def extVerdict (v : Option String) : String :=
  match v with
  | none => ""
  | some s =>
    if s = "" then ""
    else
      let valor_title := pyTitle s
      if valor_title = "Cumple" then "Cumple"
      else if valor_title = "Parcialmente" then "Parcialmente"
      else ""

/-- Result of Python `float(...)`: a finite value (modelled exactly as a
rational), a signed infinity, or a NaN.  Infinities and NaN compare
unequal to every integer, which is all the evaluator asks of them. -/
inductive PyFloat where
  | finite (q : ℚ)
  | infty (neg : Bool)
  | nan
deriving DecidableEq

/-- Value of a digit run. -/
def digitsVal (l : List Char) : Nat :=
  l.foldl (fun a c => a * 10 + (c.toNat - 48)) 0

/-- Exponent part of a Python float literal: either nothing remains
(exponent 0), or `e`/`E`, an optional sign and a nonempty digit run
close the string. -/
def parseExpNum (l : List Char) : Option Int :=
  match l with
  | [] => some 0
  | e :: r =>
    if e = 'e' || e = 'E' then
      let signed : Bool × List Char :=
        match r with
        | '+' :: t => (false, t)
        | '-' :: t => (true, t)
        | t => (false, t)
      let ds := signed.2.takeWhile isAsciiDigit
      if ds = [] || signed.2.dropWhile isAsciiDigit ≠ [] then none
      else some (if signed.1 then -(digitsVal ds : Int) else (digitsVal ds : Int))
    else none

/-- Unsigned decimal part of a Python float literal: digits with an
optional fractional part, at least one digit overall, then an optional
exponent; the whole input must be consumed.  The value
`mantissa * 10 ^ (exponent - fraction length)` is assembled with integer
arithmetic and turned into a rational once at the end. -/
def parseUnsigned (l : List Char) : Option ℚ :=
  let intPart := l.takeWhile isAsciiDigit
  let rest1 := l.dropWhile isAsciiDigit
  let mantissa : Option (Nat × Nat × List Char) :=
    match rest1 with
    | '.' :: r2 =>
      let fracPart := r2.takeWhile isAsciiDigit
      if intPart = [] && fracPart = [] then none
      else some (digitsVal intPart * 10 ^ fracPart.length + digitsVal fracPart,
                 fracPart.length, r2.dropWhile isAsciiDigit)
    | _ =>
      if intPart = [] then none else some (digitsVal intPart, 0, rest1)
  match mantissa with
  | none => none
  | some (m, fl, rest2) =>
    match parseExpNum rest2 with
    | none => none
    | some ex =>
      let p : Int := ex - (fl : Int)
      some (if 0 ≤ p then mkRat ((m : Int) * 10 ^ p.toNat) 1
            else mkRat (m : Int) (10 ^ (-p).toNat))

/-- Model of Python `float(s)` on strings: surrounding whitespace is
ignored, an optional sign precedes either one of the words
`inf`/`infinity`/`nan` (case-insensitive) or a decimal literal with
optional fraction and exponent.  `none` models the `ValueError` path.
(Finite values are kept as exact rationals; digit-group underscores and
IEEE rounding of long decimals are not modelled — the evaluator only
ever compares the result with the integers 1 to 5.) -/
def pyFloatParse (s : String) : Option PyFloat :=
  let l := pyStrip s.data
  let signed : Bool × List Char :=
    match l with
    | '+' :: t => (false, t)
    | '-' :: t => (true, t)
    | t => (false, t)
  let low := signed.2.map asciiLowerChar
  if low = "inf".data || low = "infinity".data then some (PyFloat.infty signed.1)
  else if low = "nan".data then some PyFloat.nan
  else
    match parseUnsigned signed.2 with
    | none => none
    | some q => some (PyFloat.finite (if signed.1 then -q else q))

/-- Rule 6 (SEGURIDAD) of `evaluar_criterios`: no data or `"0"` gives the
empty verdict; a value parsing as the float 1 or 2 gives `No Cumple`,
3 gives `Parcialmente`, 4 or 5 gives `Cumple`, any other float `N/A`;
when `float()` raises, text upper-casing to `"N/A"` gives `N/A` and
anything else the empty verdict. -/
def segVerdict (v : Option String) : String :=
  match v with
  | none => ""
  | some s =>
    if s = "" || s = "0" then ""
    else
      match pyFloatParse s with
      | some (PyFloat.finite q) =>
        if q = 1 || q = 2 then "No Cumple"
        else if q = 3 then "Parcialmente"
        else if q = 4 || q = 5 then "Cumple"
        else "N/A"
      | some _ => "N/A"
      | none => if pyUpper s = "N/A" then "N/A" else ""

/-- `evaluar_criterios` from `src/masters/slide_generator.py`: the
verdict dictionary (modelled as an insertion-ordered association list)
built from the row, the bank tag and the criteria column map.  The
`bank_name` argument is accepted, as in the source, but never read. -/
def evaluar_criterios (row : List (String × String)) (bank_name : String)
    (criteria_map : List (String × String)) : List (String × String) :=
  [("obsolescencia", obsVerdict (get_value_from_row row (alookup "obsolescencia" criteria_map))),
   ("escalabilidad", escVerdict (get_value_from_row row (alookup "escalabilidad" criteria_map))),
   ("acople", "Parcialmente"),
   ("estabilidad", estVerdict (get_value_from_row row (alookup "estabilidad" criteria_map))),
   ("extensibilidad", extVerdict (get_value_from_row row (alookup "extensibilidad" criteria_map))),
   ("seguridad", segVerdict (get_value_from_row row (alookup "seguridad" criteria_map)))]

example : pyFloatParse "3" = some (PyFloat.finite 3) := by decide
example : pyFloatParse "2.0" = some (PyFloat.finite 2) := by decide
example : pyFloatParse "4e0" = some (PyFloat.finite 4) := by decide
example : pyFloatParse "abc" = none := by decide
example : pyFloatParse "N/A" = none := by decide
example : pyFloatParse "-2.5" = some (PyFloat.finite (-(mkRat 5 2))) := by decide
example : pyFloatParse "inf" = some (PyFloat.infty false) := by decide
example : segVerdict (some "3") = "Parcialmente" := by decide
example : segVerdict (some "6") = "N/A" := by decide
example : segVerdict (some "N/A") = "N/A" := by decide

/-- `SIMILARITY_THRESHOLD * 100` of `src/masters/slide_generator.py`:
the source stores `0.90` and compares `score >= 0.90 * 100`; the IEEE
double product `0.90 * 100` is exactly `90.0` and the scorer yields
integers, so the comparison is `90 ≤ score`. -/
def SIMILARITY_THRESHOLD_x100 : Nat := 90

/-- Scan step of `thefuzz.process.extractOne`: keep the first candidate
attaining the maximal score (Python `max` keeps the earliest maximal
element). -/
def extractGo (scorer : String → String → Nat) (q : String) :
    String × Nat → List String → String × Nat
  | best, [] => best
  | best, k :: ks =>
    let s := scorer q k
    if best.2 < s then extractGo scorer q (k, s) ks
    else extractGo scorer q best ks

/-- Model of `thefuzz.process.extractOne(q, keys, scorer)`: `none` on an
empty candidate list, otherwise the first maximum-scoring candidate
together with its score.  The token-set scorer itself (a third-party
library function) is a parameter. -/
def extractOne (scorer : String → String → Nat) (q : String) :
    List String → Option (String × Nat)
  | [] => none
  | k :: ks => some (extractGo scorer q (k, scorer q k) ks)

/-- `find_best_match` from `src/masters/slide_generator.py`: normalize
the name; an empty choices dict gives no match; an exact key hit returns
its stored original name; otherwise the best fuzzy candidate is returned
when its score reaches the threshold. -/
def find_best_match (scorer : String → String → Nat) (app_name : String)
    (choices_dict : List (String × String)) : Option String :=
  let normalized_name := normalize_string app_name
  if choices_dict.isEmpty then none
  else
    match alookup normalized_name choices_dict with
    | some v => some v
    | none =>
      match extractOne scorer normalized_name (choices_dict.map Prod.fst) with
      | none => none
      | some ms =>
        if SIMILARITY_THRESHOLD_x100 ≤ ms.2 then alookup ms.1 choices_dict
        else none

/-- One input line of `generate_slide_for_subdomain`:
`((country, bank, app_name), original_line)`. -/
def LineT : Type := (String × String × String) × String

/-- `COUNTRY_SORT_ORDER` from `src/masters/slide_generator.py`. -/
def COUNTRY_SORT_ORDER : List (String × Nat) :=
  [("Colombia (CO)", 1), ("Panamá (PA)", 2), ("Costa Rica (CR)", 3),
   ("Honduras (HN)", 4), ("El Salvador (SV)", 5), ("EEUU - Miami (US)", 6)]

/-- `BANK_SORT_ORDER` from `src/masters/slide_generator.py`. -/
def BANK_SORT_ORDER : List (String × Nat) :=
  [("BuyerBank", 1), ("BoughtBank", 2)]

/-- `_get_sort_key` from `src/masters/slide_generator.py`: country rank
(99 when unknown), bank rank, lower-cased application name. -/
def getSortKey (lt : LineT) : Nat × Nat × String :=
  let country := lt.1.1
  let bank := lt.1.2.1
  let app_name := lt.1.2.2
  let bank_sort_name :=
    if pyContains "BUYERBANK" (pyUpper bank) then "BuyerBank" else "BoughtBank"
  ((alookup country COUNTRY_SORT_ORDER).getD 99,
   (alookup bank_sort_name BANK_SORT_ORDER).getD 99,
   pyLower app_name)

/-- Lexicographic comparison of character lists by code point, Python's
string ordering. -/
def charListLt : List Char → List Char → Bool
  | [], [] => false
  | [], _ :: _ => true
  | _ :: _, [] => false
  | a :: as, b :: bs =>
    if a.toNat < b.toNat then true
    else if b.toNat < a.toNat then false
    else charListLt as bs

/-- Non-strict Python tuple comparison of two sort keys. -/
def keyLe (x y : Nat × Nat × String) : Bool :=
  if x.1 ≠ y.1 then x.1 < y.1
  else if x.2.1 ≠ y.2.1 then x.2.1 < y.2.1
  else x.2.2 == y.2.2 || charListLt x.2.2.data y.2.2.data

/-- Line ordering used by `sorted(app_lines_data, key=_get_sort_key)`.
Python's sort is stable, and a stable sort is determined by the ordering
and the input order, so the insertion sort below computes the same list. -/
def lineOrder (a b : LineT) : Prop :=
  keyLe (getSortKey a) (getSortKey b) = true

instance : DecidableRel lineOrder := fun a b => by
  unfold lineOrder
  infer_instance

/-- Bank-tag classification of the driver loop: the upper-cased tag
containing `"BUYERBANK"` selects the buyer side, else containing
`"BOUGHTBANK"` the bought side, and anything else is unrecognized
(printed and skipped in the source). -/
def bankKind (bank : String) : Option Bool :=
  if pyContains "BUYERBANK" (pyUpper bank) then some true
  else if pyContains "BOUGHTBANK" (pyUpper bank) then some false
  else none

/-- Reconciliation loop of `generate_slide_for_subdomain`, restricted to
what it contributes to the returned `pending_lines`: unrecognized bank
tags are skipped; a recognized tag whose name finds no acceptable match
appends the original line; everything else only draws shapes.  Rendering
and the database update are side effects on external objects and do not
influence the returned list. -/
def reconcileLoop (scorer : String → String → Nat)
    (choices_buyer choices_bought : List (String × String)) :
    List LineT → List String
  | [] => []
  | line :: rest =>
    let bank := line.1.2.1
    let app_name := line.1.2.2
    let original_line := line.2
    match bankKind bank with
    | none => reconcileLoop scorer choices_buyer choices_bought rest
    | some isBuyer =>
      let target_choices := if isBuyer then choices_buyer else choices_bought
      match find_best_match scorer app_name target_choices with
      | some _ => reconcileLoop scorer choices_buyer choices_bought rest
      | none => original_line :: reconcileLoop scorer choices_buyer choices_bought rest

/-- `generate_slide_for_subdomain` from `src/masters/slide_generator.py`,
projected onto its return value: the lines are sorted by
`_get_sort_key` and the loop collects the pending lines. -/
def generate_slide_pending (scorer : String → String → Nat)
    (choices_buyer choices_bought : List (String × String))
    (app_lines_data : List LineT) : List String :=
  reconcileLoop scorer choices_buyer choices_bought
    (List.insertionSort lineOrder app_lines_data)

example :
    find_best_match (fun _ _ => 0) "Portal Clientes"
      [("portal clientes", "Portal de Clientes S.A.")] = some "Portal de Clientes S.A." := by
  decide

example :
    generate_slide_pending (fun _ _ => 0) [("portal clientes", "P")] []
      [(("Colombia (CO)", "BuyerBank", "App X"), "CO|BuyerBank|App X"),
       (("Colombia (CO)", "OtherBank", "App Y"), "CO|OtherBank|App Y"),
       (("Colombia (CO)", "BoughtBank", "App Z"), "CO|BoughtBank|App Z")] =
      ["CO|BuyerBank|App X", "CO|BoughtBank|App Z"] := by
  decide

/-- No two consecutive whitespace characters (the shape of text already
collapsed by `re.sub(r"\s+", " ", text)`). -/
def noDoubleWs : List Char → Bool
  | [] => true
  | [_] => true
  | a :: b :: rest => !(isPyWs a && isPyWs b) && noDoubleWs (b :: rest)

/-! ## Helper lemmas -/

theorem evaluar_obsolescencia (row : List (String × String)) (bank_name : String)
    (criteria_map : List (String × String)) :
    alookup "obsolescencia" (evaluar_criterios row bank_name criteria_map) =
      some (obsVerdict (get_value_from_row row (alookup "obsolescencia" criteria_map))) := by
  simp [evaluar_criterios, alookup]

theorem evaluar_extensibilidad (row : List (String × String)) (bank_name : String)
    (criteria_map : List (String × String)) :
    alookup "extensibilidad" (evaluar_criterios row bank_name criteria_map) =
      some (extVerdict (get_value_from_row row (alookup "extensibilidad" criteria_map))) := by
  simp [evaluar_criterios, alookup]

theorem evaluar_seguridad (row : List (String × String)) (bank_name : String)
    (criteria_map : List (String × String)) :
    alookup "seguridad" (evaluar_criterios row bank_name criteria_map) =
      some (segVerdict (get_value_from_row row (alookup "seguridad" criteria_map))) := by
  simp [evaluar_criterios, alookup]

theorem obsVerdict_mem (v : Option String) :
    obsVerdict v ∈ ["Cumple", "No Cumple", "Parcialmente", "N/A", ""] := by
  cases v with
  | none => simp [obsVerdict]
  | some s =>
    simp only [obsVerdict]
    split_ifs <;> simp

theorem escVerdict_mem (v : Option String) :
    escVerdict v ∈ ["Cumple", "No Cumple", "Parcialmente", "N/A", ""] := by
  cases v with
  | none => simp [escVerdict]
  | some s =>
    simp only [escVerdict]
    split_ifs <;> simp

theorem estVerdict_mem (v : Option String) :
    estVerdict v ∈ ["Cumple", "No Cumple", "Parcialmente", "N/A", ""] := by
  cases v with
  | none => simp [estVerdict]
  | some s =>
    simp only [estVerdict]
    split_ifs <;> simp

theorem extVerdict_mem (v : Option String) :
    extVerdict v ∈ ["Cumple", "No Cumple", "Parcialmente", "N/A", ""] := by
  cases v with
  | none => simp [extVerdict]
  | some s =>
    simp only [extVerdict]
    split_ifs <;> simp

theorem segVerdict_mem (v : Option String) :
    segVerdict v ∈ ["Cumple", "No Cumple", "Parcialmente", "N/A", ""] := by
  cases v with
  | none => simp [segVerdict]
  | some s =>
    simp only [segVerdict]
    split
    · simp
    · split <;> first
        | (split_ifs <;> simp)
        | simp

theorem startsWithL_iff (p l : List Char) :
    startsWithL p l = true ↔ ∃ r, l = p ++ r := by
  induction p generalizing l with
  | nil => simp [startsWithL]
  | cons a as ih =>
    cases l with
    | nil =>
      simp [startsWithL]
    | cons b bs =>
      simp only [startsWithL, Bool.and_eq_true, beq_iff_eq, ih, List.cons_append,
        List.cons.injEq]
      constructor
      · rintro ⟨rfl, r, rfl⟩
        exact ⟨r, rfl, rfl⟩
      · rintro ⟨r, rfl, rfl⟩
        exact ⟨rfl, r, rfl⟩

theorem containsSub_iff (p l : List Char) :
    containsSub p l = true ↔ ∃ u v, l = u ++ p ++ v := by
  induction l with
  | nil =>
    simp only [containsSub, startsWithL_iff]
    constructor
    · rintro ⟨r, hr⟩
      exact ⟨[], r, by simpa using hr⟩
    · rintro ⟨u, v, huv⟩
      rcases List.append_eq_nil.mp huv.symm with ⟨h1, h2⟩
      rcases List.append_eq_nil.mp h1 with ⟨rfl, rfl⟩
      exact ⟨[], by simp [h2]⟩
  | cons c cs ih =>
    simp only [containsSub, Bool.or_eq_true, startsWithL_iff, ih]
    constructor
    · rintro (⟨r, hr⟩ | ⟨u, v, huv⟩)
      · exact ⟨[], r, by simpa using hr⟩
      · exact ⟨c :: u, v, by simp [huv]⟩
    · rintro ⟨u, v, huv⟩
      cases u with
      | nil => exact Or.inl ⟨v, by simpa using huv⟩
      | cons d ds =>
        simp only [List.cons_append, List.cons.injEq] at huv
        exact Or.inr ⟨ds, v, huv.2⟩

theorem containsSub_of_infix (q x y l : List Char)
    (h : containsSub (x ++ q ++ y) l = true) : containsSub q l = true := by
  rcases (containsSub_iff _ _).mp h with ⟨u, v, rfl⟩
  refine (containsSub_iff _ _).mpr ⟨u ++ x, y ++ v, ?_⟩
  simp [List.append_assoc]

/-! ## Claim theorems: criteria evaluator -/

/-- C8: for every application record, every source tag and every column
mapping, the acople verdict returned by `evaluar_criterios` is exactly
`"Parcialmente"`. -/
theorem acople_always_parcialmente (row : List (String × String)) (bank_name : String)
    (criteria_map : List (String × String)) :
    alookup "acople" (evaluar_criterios row bank_name criteria_map) =
      some "Parcialmente" := by
  simp [evaluar_criterios, alookup]

/-- C3 (counterexample): at a concrete record, source tag and column
mapping, the key set of the verdict mapping returned by
`evaluar_criterios` is not the claimed nine-key list (cobertura, ux and
agilidad are absent). -/
theorem evaluar_not_nine_keys :
    (evaluar_criterios [] "BuyerBank" []).map Prod.fst ≠
      ["obsolescencia", "escalabilidad", "acople", "estabilidad", "extensibilidad",
       "seguridad", "cobertura", "ux", "agilidad"] := by
  decide

/-- C3 (amended): for every application record, source tag and column
mapping, the mapping returned by `evaluar_criterios` has exactly the six
criterion keys obsolescencia, escalabilidad, acople, estabilidad,
extensibilidad, seguridad (in that order), and every value is one of
`"Cumple"`, `"No Cumple"`, `"Parcialmente"`, `"N/A"` or the empty
verdict. -/
theorem evaluar_keys_and_values (row : List (String × String)) (bank_name : String)
    (criteria_map : List (String × String)) :
    (evaluar_criterios row bank_name criteria_map).map Prod.fst =
      ["obsolescencia", "escalabilidad", "acople", "estabilidad", "extensibilidad",
       "seguridad"]
    ∧ ∀ p ∈ evaluar_criterios row bank_name criteria_map,
        p.2 ∈ ["Cumple", "No Cumple", "Parcialmente", "N/A", ""] := by
  refine ⟨rfl, ?_⟩
  intro p hp
  simp only [evaluar_criterios, List.mem_cons, List.mem_singleton] at hp
  rcases hp with rfl | rfl | rfl | rfl | rfl | rfl | h
  · exact obsVerdict_mem _
  · exact escVerdict_mem _
  · simp
  · exact estVerdict_mem _
  · exact extVerdict_mem _
  · exact segVerdict_mem _
  · simp at h

/-- C3 (witness): the amended claim evaluated at a concrete record. -/
theorem evaluar_keys_and_values_witness :
    segVerdict (get_value_from_row [("seguridad", "4")] (alookup "seguridad" [("seguridad", "seguridad")]))
      ∈ ["Cumple", "No Cumple", "Parcialmente", "N/A", ""] := by
  have h := (evaluar_keys_and_values [("seguridad", "4")] "BoughtBank"
    [("seguridad", "seguridad")]).2
  exact h ("seguridad",
    segVerdict (get_value_from_row [("seguridad", "4")]
      (alookup "seguridad" [("seguridad", "seguridad")]))) (by simp [evaluar_criterios])

/-- C1 (counterexample): a record whose obsolescencia field is the
present, non-zero value `"Vigente"` (which contains `"vigente"`
case-insensitively), evaluated with the first organization's tag, gets
the empty obsolescencia verdict, not `"Cumple"`. -/
theorem obsolescencia_vigente_not_cumple :
    alookup "obsolescencia"
        (evaluar_criterios [("nivel_de_obsolescencia_1", "Vigente")] "BuyerBank"
          [("obsolescencia", "nivel_de_obsolescencia_1")]) = some ""
    ∧ ("" : String) ≠ "Cumple" := by
  decide

/-- C1 (amended): for every application record and column mapping, the
obsolescencia verdict of `evaluar_criterios` is independent of the
source tag; a missing, blank or `"0"` field yields the empty verdict,
and otherwise the verdict is `"Cumple"` when the lower-cased value
contains `"no obsoleto"`, `"No Cumple"` when it contains `"obsoleto"`
but not `"no obsoleto"`, and empty when it contains neither (so
`"Vigente"` and `"Legado"` both yield the empty verdict). -/
theorem obsolescencia_rule (row : List (String × String)) (bank_name other_tag : String)
    (criteria_map : List (String × String)) :
    (alookup "obsolescencia" (evaluar_criterios row bank_name criteria_map) =
       alookup "obsolescencia" (evaluar_criterios row other_tag criteria_map))
    ∧ (get_value_from_row row (alookup "obsolescencia" criteria_map) = none →
       alookup "obsolescencia" (evaluar_criterios row bank_name criteria_map) = some "")
    ∧ (∀ s, get_value_from_row row (alookup "obsolescencia" criteria_map) = some s →
        (s = "" ∨ s = "0" →
          alookup "obsolescencia" (evaluar_criterios row bank_name criteria_map) = some "")
        ∧ (s ≠ "" → s ≠ "0" → pyContains "no obsoleto" (pyLower s) = true →
          alookup "obsolescencia" (evaluar_criterios row bank_name criteria_map) =
            some "Cumple")
        ∧ (s ≠ "" → s ≠ "0" → pyContains "no obsoleto" (pyLower s) = false →
           pyContains "obsoleto" (pyLower s) = true →
          alookup "obsolescencia" (evaluar_criterios row bank_name criteria_map) =
            some "No Cumple")
        ∧ (s ≠ "" → s ≠ "0" → pyContains "obsoleto" (pyLower s) = false →
          alookup "obsolescencia" (evaluar_criterios row bank_name criteria_map) =
            some "")) := by
  refine ⟨by rw [evaluar_obsolescencia, evaluar_obsolescencia], ?_, ?_⟩
  · intro h
    rw [evaluar_obsolescencia, h]
    rfl
  · intro s hs
    refine ⟨?_, ?_, ?_, ?_⟩
    · rintro (rfl | rfl) <;> · rw [evaluar_obsolescencia, hs]; rfl
    · intro h1 h2 h3
      rw [evaluar_obsolescencia, hs]
      simp [obsVerdict, h1, h2, h3]
    · intro h1 h2 h3 h4
      rw [evaluar_obsolescencia, hs]
      simp [obsVerdict, h1, h2, h3, h4]
    · intro h1 h2 h3
      have h4 : pyContains "no obsoleto" (pyLower s) = false := by
        cases hx : pyContains "no obsoleto" (pyLower s) with
        | false => rfl
        | true =>
          have hd : ("no ".data ++ "obsoleto".data ++ ([] : List Char)) =
              "no obsoleto".data := by decide
          have hobs : pyContains "obsoleto" (pyLower s) = true :=
            containsSub_of_infix "obsoleto".data "no ".data [] (pyLower s).data
              (by rw [hd]; exact hx)
          simp [hobs] at h3
      rw [evaluar_obsolescencia, hs]
      simp [obsVerdict, h1, h2, h3, h4]

/-- C1 (witness): the amended obsolescencia rule applied at the concrete
field values `"Obsoleto"` and `"No obsoleto"`. -/
theorem obsolescencia_rule_witness :
    alookup "obsolescencia"
        (evaluar_criterios [("o", "Obsoleto")] "BuyerBank" [("obsolescencia", "o")]) =
      some "No Cumple"
    ∧ alookup "obsolescencia"
        (evaluar_criterios [("o", "No obsoleto")] "BoughtBank" [("obsolescencia", "o")]) =
      some "Cumple" :=
  ⟨(((obsolescencia_rule [("o", "Obsoleto")] "BuyerBank" "X"
      [("obsolescencia", "o")]).2.2 "Obsoleto" (by decide)).2.2.1
      (by decide) (by decide) (by decide) (by decide)),
   (((obsolescencia_rule [("o", "No obsoleto")] "BoughtBank" "X"
      [("obsolescencia", "o")]).2.2 "No obsoleto" (by decide)).2.1
      (by decide) (by decide) (by decide))⟩

/-- C2 (counterexample): at a concrete record whose obsolescencia
verdict resolves to `"No Cumple"` and whose extensibilidad field is
`"Regional"`, the extensibilidad verdict is the empty verdict, not the
claimed forced `"No Cumple"`. -/
theorem extensibilidad_no_override :
    alookup "obsolescencia"
        (evaluar_criterios [("obs", "Obsoleto"), ("ext", "Regional")] "BuyerBank"
          [("obsolescencia", "obs"), ("extensibilidad", "ext")]) = some "No Cumple"
    ∧ alookup "extensibilidad"
        (evaluar_criterios [("obs", "Obsoleto"), ("ext", "Regional")] "BuyerBank"
          [("obsolescencia", "obs"), ("extensibilidad", "ext")]) = some ""
    ∧ ("" : String) ≠ "No Cumple" := by
  decide

/-- C2 (amended): the extensibilidad verdict of `evaluar_criterios` is a
function of the extensibilidad field alone — two evaluations whose
column mappings resolve extensibilidad to the same field value agree on
the extensibilidad verdict whatever their obsolescencia data, source
tags or other fields are — and a present field whose title-casing is
neither `"Cumple"` nor `"Parcialmente"` (such as `"Regional"`) yields
the empty verdict, never an override from obsolescencia. -/
theorem extensibilidad_rule (row row2 : List (String × String))
    (bank_name bank2 : String) (criteria_map map2 : List (String × String)) :
    (get_value_from_row row (alookup "extensibilidad" criteria_map) =
       get_value_from_row row2 (alookup "extensibilidad" map2) →
     alookup "extensibilidad" (evaluar_criterios row bank_name criteria_map) =
       alookup "extensibilidad" (evaluar_criterios row2 bank2 map2))
    ∧ (∀ s, get_value_from_row row (alookup "extensibilidad" criteria_map) = some s →
        s ≠ "" → pyTitle s ≠ "Cumple" → pyTitle s ≠ "Parcialmente" →
        alookup "extensibilidad" (evaluar_criterios row bank_name criteria_map) =
          some "") := by
  constructor
  · intro h
    rw [evaluar_extensibilidad, evaluar_extensibilidad, h]
  · intro s hs h1 h2 h3
    rw [evaluar_extensibilidad, hs]
    simp [extVerdict, h1, h2, h3]

/-- C2 (witness): the amended extensibilidad rule at concrete records —
the record with obsolescencia `"Obsoleto"` and the record without any
obsolescencia data give the same extensibilidad verdict, and field
`"Regional"` yields the empty verdict. -/
theorem extensibilidad_rule_witness :
    (alookup "extensibilidad"
        (evaluar_criterios [("obs", "Obsoleto"), ("ext", "Regional")] "BuyerBank"
          [("obsolescencia", "obs"), ("extensibilidad", "ext")]) =
      alookup "extensibilidad"
        (evaluar_criterios [("ext", "Regional")] "BoughtBank" [("extensibilidad", "ext")]))
    ∧ alookup "extensibilidad"
        (evaluar_criterios [("obs", "Obsoleto"), ("ext", "Regional")] "BuyerBank"
          [("obsolescencia", "obs"), ("extensibilidad", "ext")]) = some "" :=
  ⟨(extensibilidad_rule [("obs", "Obsoleto"), ("ext", "Regional")] [("ext", "Regional")]
      "BuyerBank" "BoughtBank" [("obsolescencia", "obs"), ("extensibilidad", "ext")]
      [("extensibilidad", "ext")]).1 (by decide),
   (extensibilidad_rule [("obs", "Obsoleto"), ("ext", "Regional")] []
      "BuyerBank" "X" [("obsolescencia", "obs"), ("extensibilidad", "ext")] []).2
      "Regional" (by decide) (by decide) (by decide) (by decide)⟩

theorem segVerdict_ne_empty_aux (s : String) (q : ℚ)
    (hq : pyFloatParse s = some (PyFloat.finite q)) (hq0 : q ≠ 0) :
    s ≠ "" ∧ s ≠ "0" := by
  constructor
  · rintro rfl
    rw [show pyFloatParse "" = none from by decide] at hq
    cases hq
  · rintro rfl
    rw [show pyFloatParse "0" = some (PyFloat.finite 0) from by decide] at hq
    have h0q : (0 : ℚ) = q := by simpa using hq
    exact hq0 h0q.symm

theorem segVerdict_of_finite (s : String) (q : ℚ)
    (hq : pyFloatParse s = some (PyFloat.finite q)) (hq0 : q ≠ 0) :
    segVerdict (some s) =
      (if q = 1 ∨ q = 2 then "No Cumple"
       else if q = 3 then "Parcialmente"
       else if q = 4 ∨ q = 5 then "Cumple" else "N/A") := by
  obtain ⟨hsne, hs0⟩ := segVerdict_ne_empty_aux s q hq hq0
  have hcond : (decide (s = "") || decide (s = "0")) = false := by
    simp [hsne, hs0]
  simp only [segVerdict, hq, hcond, Bool.false_eq_true, if_false]
  by_cases h12 : q = 1 ∨ q = 2
  · simp [h12]
  · by_cases h3 : q = 3
    · simp [h12, h3]
    · by_cases h45 : q = 4 ∨ q = 5
      · simp [h12, h3, h45]
      · simp [h12, h3, h45]

theorem segVerdict_of_unparseable (s : String)
    (hsne : s ≠ "") (hp : pyFloatParse s = none) :
    segVerdict (some s) = (if pyUpper s = "N/A" then "N/A" else "") := by
  have hs0 : s ≠ "0" := by
    rintro rfl
    rw [show pyFloatParse "0" = some (PyFloat.finite 0) from by decide] at hp
    cases hp
  have hcond : (decide (s = "") || decide (s = "0")) = false := by
    simp [hsne, hs0]
  simp only [segVerdict, hp, hcond, Bool.false_eq_true, if_false]

/-- C7: for every application record, source tag and column mapping, the
seguridad verdict of `evaluar_criterios` is: empty when the field is
missing, blank or `"0"`; `"No Cumple"` when it parses to the float 1 or
2; `"Parcialmente"` when it parses to 3; `"Cumple"` when it parses to 4
or 5; `"N/A"` when `float()` fails and the text upper-cases to
`"N/A"`; and empty for any other unparseable text. -/
theorem seguridad_rule (row : List (String × String)) (bank_name : String)
    (criteria_map : List (String × String)) :
    (get_value_from_row row (alookup "seguridad" criteria_map) = none →
      alookup "seguridad" (evaluar_criterios row bank_name criteria_map) = some "")
    ∧ (∀ s, get_value_from_row row (alookup "seguridad" criteria_map) = some s →
        (s = "" ∨ s = "0" →
          alookup "seguridad" (evaluar_criterios row bank_name criteria_map) = some "")
        ∧ (∀ q, pyFloatParse s = some (PyFloat.finite q) →
            (q = 1 ∨ q = 2 →
              alookup "seguridad" (evaluar_criterios row bank_name criteria_map) =
                some "No Cumple")
            ∧ (q = 3 →
              alookup "seguridad" (evaluar_criterios row bank_name criteria_map) =
                some "Parcialmente")
            ∧ (q = 4 ∨ q = 5 →
              alookup "seguridad" (evaluar_criterios row bank_name criteria_map) =
                some "Cumple"))
        ∧ (s ≠ "" → pyFloatParse s = none → pyUpper s = "N/A" →
            alookup "seguridad" (evaluar_criterios row bank_name criteria_map) =
              some "N/A")
        ∧ (s ≠ "" → pyFloatParse s = none → pyUpper s ≠ "N/A" →
            alookup "seguridad" (evaluar_criterios row bank_name criteria_map) =
              some "")) := by
  constructor
  · intro h
    rw [evaluar_seguridad, h]
    rfl
  · intro s hs
    have hres := evaluar_seguridad row bank_name criteria_map
    rw [hs] at hres
    refine ⟨?_, ?_, ?_, ?_⟩
    · rintro (rfl | rfl) <;> · rw [hres]; rfl
    · intro q hq
      refine ⟨?_, ?_, ?_⟩
      · intro hv
        have hq0 : q ≠ 0 := by rcases hv with rfl | rfl <;> norm_num
        rw [hres, segVerdict_of_finite s q hq hq0]
        simp [hv]
      · intro hv
        have hq0 : q ≠ 0 := by rw [hv]; norm_num
        rw [hres, segVerdict_of_finite s q hq hq0]
        rw [hv]
        norm_num
      · intro hv
        have hq0 : q ≠ 0 := by rcases hv with rfl | rfl <;> norm_num
        rw [hres, segVerdict_of_finite s q hq hq0]
        rcases hv with rfl | rfl <;> norm_num
    · intro h1 h2 h3
      rw [hres, segVerdict_of_unparseable s h1 h2]
      simp [h3]
    · intro h1 h2 h3
      rw [hres, segVerdict_of_unparseable s h1 h2]
      simp [h3]

/-- C7 (witness): the seguridad boundaries at the concrete field values
`"0"`, `"2"`, `"3"`, `"4"`, `"N/A"` and `"abc"`. -/
theorem seguridad_rule_witness :
    alookup "seguridad" (evaluar_criterios [("seg", "0")] "B" [("seguridad", "seg")]) =
      some ""
    ∧ alookup "seguridad" (evaluar_criterios [("seg", "2")] "B" [("seguridad", "seg")]) =
      some "No Cumple"
    ∧ alookup "seguridad" (evaluar_criterios [("seg", "3")] "B" [("seguridad", "seg")]) =
      some "Parcialmente"
    ∧ alookup "seguridad" (evaluar_criterios [("seg", "4")] "B" [("seguridad", "seg")]) =
      some "Cumple"
    ∧ alookup "seguridad" (evaluar_criterios [("seg", "N/A")] "B" [("seguridad", "seg")]) =
      some "N/A"
    ∧ alookup "seguridad" (evaluar_criterios [("seg", "abc")] "B" [("seguridad", "seg")]) =
      some "" :=
  ⟨((seguridad_rule [("seg", "0")] "B" [("seguridad", "seg")]).2 "0" (by decide)).1
      (Or.inr rfl),
   (((seguridad_rule [("seg", "2")] "B" [("seguridad", "seg")]).2 "2" (by decide)).2.1
      2 (by decide)).1 (Or.inr rfl),
   (((seguridad_rule [("seg", "3")] "B" [("seguridad", "seg")]).2 "3" (by decide)).2.1
      3 (by decide)).2.1 rfl,
   (((seguridad_rule [("seg", "4")] "B" [("seguridad", "seg")]).2 "4" (by decide)).2.1
      4 (by decide)).2.2 (Or.inl rfl),
   ((seguridad_rule [("seg", "N/A")] "B" [("seguridad", "seg")]).2 "N/A"
      (by decide)).2.2.1 (by decide) (by decide) (by decide),
   ((seguridad_rule [("seg", "abc")] "B" [("seguridad", "seg")]).2 "abc"
      (by decide)).2.2.2 (by decide) (by decide) (by decide)⟩

/-! ## Claim theorems: fuzzy matcher -/

theorem extractGo_spec (scorer : String → String → Nat) (q : String)
    (ks : List String) (best : String × Nat) (hb : scorer q best.1 = best.2) :
    (extractGo scorer q best ks = best ∨ (extractGo scorer q best ks).1 ∈ ks)
    ∧ scorer q (extractGo scorer q best ks).1 = (extractGo scorer q best ks).2
    ∧ best.2 ≤ (extractGo scorer q best ks).2
    ∧ ∀ k ∈ ks, scorer q k ≤ (extractGo scorer q best ks).2 := by
  induction ks generalizing best with
  | nil => exact ⟨Or.inl rfl, hb, Nat.le_refl _, by simp⟩
  | cons k ks ih =>
    simp only [extractGo]
    by_cases hlt : best.2 < scorer q k
    · simp only [hlt, if_true]
      obtain ⟨hmem, hsc, hle, hall⟩ := ih (k, scorer q k) rfl
      refine ⟨?_, hsc, Nat.le_trans (Nat.le_of_lt hlt) hle, ?_⟩
      · rcases hmem with he | he
        · exact Or.inr (by rw [he]; exact List.mem_cons_self _ _)
        · exact Or.inr (List.mem_cons_of_mem _ he)
      · intro k2 hk2
        rcases List.mem_cons.mp hk2 with rfl | hk2
        · exact hle
        · exact hall k2 hk2
    · simp only [hlt, if_false]
      obtain ⟨hmem, hsc, hle, hall⟩ := ih best hb
      refine ⟨?_, hsc, hle, ?_⟩
      · rcases hmem with he | he
        · exact Or.inl he
        · exact Or.inr (List.mem_cons_of_mem _ he)
      · intro k2 hk2
        rcases List.mem_cons.mp hk2 with rfl | hk2
        · exact Nat.le_trans (Nat.le_of_not_lt hlt) hle
        · exact hall k2 hk2

theorem extractOne_spec (scorer : String → String → Nat) (q : String)
    (keys : List String) (k : String) (s : Nat)
    (h : extractOne scorer q keys = some (k, s)) :
    k ∈ keys ∧ scorer q k = s ∧ ∀ k2 ∈ keys, scorer q k2 ≤ s := by
  cases keys with
  | nil => cases h
  | cons k0 ks =>
    simp only [extractOne, Option.some.injEq] at h
    obtain ⟨hmem, hsc, hle, hall⟩ := extractGo_spec scorer q ks (k0, scorer q k0) rfl
    rw [h] at hmem hsc hle hall
    refine ⟨?_, hsc, ?_⟩
    · rcases hmem with he | he
      · rw [Prod.mk.injEq] at he
        exact he.1 ▸ List.mem_cons_self _ _
      · exact List.mem_cons_of_mem _ he
    · intro k2 hk2
      rcases List.mem_cons.mp hk2 with rfl | hk2
      · exact hle
      · exact hall k2 hk2

theorem alookup_of_mem_keys {β : Type} (k : String) (l : List (String × β))
    (h : k ∈ l.map Prod.fst) : ∃ v, alookup k l = some v := by
  induction l with
  | nil => simp at h
  | cons p l ih =>
    obtain ⟨k2, v2⟩ := p
    by_cases hk : k = k2
    · exact ⟨v2, by simp [alookup, hk]⟩
    · simp only [List.map_cons, List.mem_cons] at h
      rcases h with h | h
    
      · exact absurd h hk
      · obtain ⟨v, hv⟩ := ih h
        exact ⟨v, by simp [alookup, hk, hv]⟩

/-- C5: for every scorer and name, if `normalize_string(name)` is
present as a key of the (necessarily non-empty) lookup, then
`find_best_match` returns the value stored under that key, with no
similarity scoring and independently of the threshold. -/
theorem find_best_match_exact (scorer : String → String → Nat) (app_name : String)
    (choices_dict : List (String × String)) (v : String)
    (h : alookup (normalize_string app_name) choices_dict = some v) :
    find_best_match scorer app_name choices_dict = some v := by
  have hne : choices_dict.isEmpty = false := by
    cases choices_dict
    · simp [alookup] at h
    · rfl
  unfold find_best_match
  simp [hne, h]

/-- C5 (witness): the exact-match fast path at a concrete lookup. -/
theorem find_best_match_exact_witness :
    find_best_match (fun _ _ => 0) "Portal Clientes"
      [("portal clientes", "Portal de Clientes S.A.")] =
      some "Portal de Clientes S.A." :=
  find_best_match_exact _ _ _ _ (by decide)

/-- C10: for every scorer, name and lookup, `find_best_match` returns
either no match or a value stored in the lookup (the value of some
present key); it never fabricates a name. -/
theorem find_best_match_mem (scorer : String → String → Nat) (app_name : String)
    (choices_dict : List (String × String)) :
    find_best_match scorer app_name choices_dict = none ∨
      ∃ k v, alookup k choices_dict = some v ∧
        find_best_match scorer app_name choices_dict = some v := by
  unfold find_best_match
  by_cases he : choices_dict.isEmpty
  · simp [he]
  · simp only [he, Bool.false_eq_true, if_false]
    cases hl : alookup (normalize_string app_name) choices_dict with
    | some v => exact Or.inr ⟨normalize_string app_name, v, hl, by simp⟩
    | none =>
      cases hx : extractOne scorer (normalize_string app_name)
          (choices_dict.map Prod.fst) with
      | none => simp
      | some ms =>
        by_cases hth : SIMILARITY_THRESHOLD_x100 ≤ ms.2
        · obtain ⟨hmem, -, -⟩ :=
            extractOne_spec scorer (normalize_string app_name) _ ms.1 ms.2 (by rw [hx])
          obtain ⟨v, hv⟩ := alookup_of_mem_keys ms.1 choices_dict hmem
          exact Or.inr ⟨ms.1, v, hv, by simp [hth, hv]⟩
        · simp [hth]

/-- C4: for every scorer and name whose normalization is not a key of
the lookup, with `(k, s)` the first maximum-scoring candidate and its
score: every key scores at most `s`; when `90 ≤ s` the match returns
the original name stored under `k`; when `s ≤ 89` it returns no
match. -/
theorem find_best_match_threshold (scorer : String → String → Nat) (app_name : String)
    (choices_dict : List (String × String))
    (hmiss : alookup (normalize_string app_name) choices_dict = none)
    (k : String) (s : Nat)
    (hext : extractOne scorer (normalize_string app_name) (choices_dict.map Prod.fst) =
      some (k, s)) :
    (∀ k2 ∈ choices_dict.map Prod.fst, scorer (normalize_string app_name) k2 ≤ s)
    ∧ (90 ≤ s → ∃ v, alookup k choices_dict = some v ∧
        find_best_match scorer app_name choices_dict = some v)
    ∧ (s ≤ 89 → find_best_match scorer app_name choices_dict = none) := by
  obtain ⟨hmem, hsc, hall⟩ :=
    extractOne_spec scorer (normalize_string app_name) _ k s hext
  have hne : choices_dict.isEmpty = false := by
    cases choices_dict
    · simp at hmem
    · rfl
  refine ⟨hall, ?_, ?_⟩
  · intro hth
    obtain ⟨v, hv⟩ := alookup_of_mem_keys k choices_dict hmem
    refine ⟨v, hv, ?_⟩
    unfold find_best_match
    simp [hne, hmiss, hext, SIMILARITY_THRESHOLD_x100, hth, hv]
  · intro hth
    have hnth : ¬ (SIMILARITY_THRESHOLD_x100 ≤ s) := by
      simp only [SIMILARITY_THRESHOLD_x100]
      omega
    unfold find_best_match
    simp [hne, hmiss, hext, hnth]

/-- C4 (witness): the threshold boundary with constant scorers at 90 and
at 89 over a one-entry lookup. -/
theorem find_best_match_threshold_witness :
    (∃ v, alookup "x" [("x", "X")] = some v ∧
        find_best_match (fun _ _ => 90) "zzz" [("x", "X")] = some v)
    ∧ find_best_match (fun _ _ => 89) "zzz" [("x", "X")] = none :=
  ⟨(find_best_match_threshold (fun _ _ => 90) "zzz" [("x", "X")] (by decide) "x" 90
      (by decide)).2.1 (by decide),
   (find_best_match_threshold (fun _ _ => 89) "zzz" [("x", "X")] (by decide) "x" 89
      (by decide)).2.2 (by decide)⟩

/-! ## Claim theorems: reconciliation driver -/

theorem reconcileLoop_mem (scorer : String → String → Nat)
    (choices_buyer choices_bought : List (String × String))
    (ls : List LineT) (x : String) :
    x ∈ reconcileLoop scorer choices_buyer choices_bought ls ↔
      ∃ line ∈ ls, line.2 = x ∧ ∃ b, bankKind line.1.2.1 = some b ∧
        find_best_match scorer line.1.2.2
          (if b then choices_buyer else choices_bought) = none := by
  induction ls with
  | nil => simp [reconcileLoop]
  | cons hd tl ih =>
    cases hbk : bankKind hd.1.2.1 with
    | none =>
      simp only [reconcileLoop, hbk, ih, List.mem_cons]
      constructor
      · rintro ⟨line, hmem, rest⟩
        exact ⟨line, Or.inr hmem, rest⟩
      · rintro ⟨line, hmem, hx, b, hb, hm⟩
        rcases hmem with rfl | hmem
        · rw [hbk] at hb
          cases hb
        · exact ⟨line, hmem, hx, b, hb, hm⟩
    | some isBuyer =>
      cases hm : find_best_match scorer hd.1.2.2
          (if isBuyer then choices_buyer else choices_bought) with
      | some matched =>
        simp only [reconcileLoop, hbk, hm, ih, List.mem_cons]
        constructor
        · rintro ⟨line, hmem, rest⟩
          exact ⟨line, Or.inr hmem, rest⟩
        · rintro ⟨line, hmem, hx, b, hb, hmm⟩
          rcases hmem with rfl | hmem
          · rw [hbk] at hb
            injection hb with hb
            subst hb
            rw [hm] at hmm
            cases hmm
          · exact ⟨line, hmem, hx, b, hb, hmm⟩
      | none =>
        simp only [reconcileLoop, hbk, hm, List.mem_cons, ih]
        constructor
        · rintro (rfl | ⟨line, hmem, rest⟩)
          · exact ⟨hd, Or.inl rfl, rfl, isBuyer, hbk, hm⟩
          · exact ⟨line, Or.inr hmem, rest⟩
        · rintro ⟨line, hmem, hx, b, hb, hmm⟩
          rcases hmem with rfl | hmem
          · exact Or.inl hx.symm
          · exact Or.inr ⟨line, hmem, hx, b, hb, hmm⟩

/-- C9: for every input list of (country, source-tag, name) triples, the
pending list returned by the driver is total over the input — a line
with an unrecognized tag or an unmatched name never aborts the rest —
and a line appears in the returned pending list exactly when its tag is
recognized and its name finds no acceptable match; unrecognized-tag
lines are skipped and contribute nothing. -/
theorem pending_lines_complete (scorer : String → String → Nat)
    (choices_buyer choices_bought : List (String × String))
    (app_lines_data : List LineT) (x : String) :
    x ∈ generate_slide_pending scorer choices_buyer choices_bought app_lines_data ↔
      ∃ line ∈ app_lines_data, line.2 = x ∧ ∃ b, bankKind line.1.2.1 = some b ∧
        find_best_match scorer line.1.2.2
          (if b then choices_buyer else choices_bought) = none := by
  unfold generate_slide_pending
  rw [reconcileLoop_mem]
  constructor
  · rintro ⟨line, hmem, rest⟩
    exact ⟨line, (List.perm_insertionSort lineOrder app_lines_data).mem_iff.mp hmem, rest⟩
  · rintro ⟨line, hmem, rest⟩
    exact ⟨line, (List.perm_insertionSort lineOrder app_lines_data).mem_iff.mpr hmem, rest⟩

/-- C9 (witness): a concrete batch with an unrecognized tag, a matched
name and an unmatched name — the unmatched line is pending, the batch
is fully processed. -/
theorem pending_lines_complete_witness :
    "CO|BoughtBank|App Z" ∈ generate_slide_pending (fun _ _ => 0)
      [("app x", "App X")] []
      [(("Colombia (CO)", "BuyerBank", "App X"), "CO|BuyerBank|App X"),
       (("Colombia (CO)", "OtherBank", "App Y"), "CO|OtherBank|App Y"),
       (("Colombia (CO)", "BoughtBank", "App Z"), "CO|BoughtBank|App Z")] :=
  (pending_lines_complete (fun _ _ => 0) [("app x", "App X")] [] _ _).mpr
    ⟨(("Colombia (CO)", "BoughtBank", "App Z"), "CO|BoughtBank|App Z"),
     by simp, rfl, false, by decide, by decide⟩

/-! ## Claim theorems: normalizer idempotence -/

theorem canonChar_facts (c : Char) (h : isAllowedOrWs c = true) :
    subscriptTranslateChar c = c ∧ unidecodeChar c = [c] ∧ asciiLowerChar c = c ∧
      c ≠ '(' := by
  have hrange : (97 ≤ c.toNat ∧ c.toNat ≤ 122) ∨ (48 ≤ c.toNat ∧ c.toNat ≤ 57) ∨
      c.toNat = 32 ∨ (9 ≤ c.toNat ∧ c.toNat ≤ 13) ∨ (28 ≤ c.toNat ∧ c.toNat ≤ 31) ∨
      c.toNat = 45 := by
    simp only [isAllowedOrWs, isAsciiLowerAlpha, isAsciiDigit, isPyWs, Bool.or_eq_true,
      Bool.and_eq_true, decide_eq_true_eq] at h
    rcases h with h | rfl
    · omega
    · exact Or.inr (Or.inr (Or.inr (Or.inr (Or.inr (by decide)))))
  refine ⟨?_, ?_, ?_, ?_⟩
  · simp only [subscriptTranslateChar]
    rw [if_neg (by simp only [Bool.and_eq_true, decide_eq_true_eq]; omega)]
  · simp only [unidecodeChar]
    rw [if_pos (by omega)]
  · simp only [asciiLowerChar, isAsciiUpperAlpha]
    rw [if_neg (by simp only [Bool.and_eq_true, decide_eq_true_eq]; omega)]
  · intro heq
    subst heq
    revert hrange
    decide

theorem map_eq_self_of {α : Type} {f : α → α} {l : List α} (h : ∀ a ∈ l, f a = a) :
    l.map f = l := by
  induction l with
  | nil => rfl
  | cons a as ih =>
    rw [List.map_cons, h a (List.mem_cons_self a as),
      ih (fun b hb => h b (List.mem_cons_of_mem a hb))]

theorem flatten_map_eq_self_of {α : Type} {g : α → List α} {l : List α}
    (h : ∀ a ∈ l, g a = [a]) : (l.map g).flatten = l := by
  induction l with
  | nil => rfl
  | cons a as ih =>
    rw [List.map_cons, List.flatten_cons, h a (List.mem_cons_self a as),
      ih (fun b hb => h b (List.mem_cons_of_mem a hb))]
    rfl

theorem mem_of_mem_dropWhile {α : Type} (p : α → Bool) (l : List α) (a : α)
    (h : a ∈ l.dropWhile p) : a ∈ l := by
  induction l with
  | nil => simpa using h
  | cons b bs ih =>
    rw [List.dropWhile_cons] at h
    split at h
    · exact List.mem_cons_of_mem b (ih h)
    · exact h

theorem remParenGo_eq_self (n : Nat) (l : List Char) (hlen : l.length ≤ n)
    (h : '(' ∉ l) : remParenGo n l = l := by
  induction n generalizing l with
  | zero =>
    cases l with
    | nil => rfl
    | cons c cs => simp at hlen
  | succ n ih =>
    cases l with
    | nil => rfl
    | cons c cs =>
      have htail : '(' ∉ cs := fun hm => h (List.mem_cons_of_mem c hm)
      have hlen2 : cs.length ≤ n := by simpa using hlen
      simp only [remParenGo]
      split
      · rename_i r2 heq
        exact absurd (mem_of_mem_dropWhile isPyWs (c :: cs) '('
          (by rw [heq]; exact List.mem_cons_self _ _)) h
      · rw [ih cs hlen2 htail]

theorem remParen_eq_self (l : List Char) (h : '(' ∉ l) : remParen l = l :=
  remParenGo_eq_self l.length l (Nat.le_refl _) h

theorem replaceAllGo_eq_self (pat : List Char) (n : Nat) (l : List Char)
    (hlen : l.length ≤ n) (h : containsSub pat l = false) :
    replaceAllGo pat n l = l := by
  induction n generalizing l with
  | zero =>
    cases l with
    | nil => rfl
    | cons c cs => simp at hlen
  | succ n ih =>
    cases l with
    | nil => rfl
    | cons c cs =>
      rw [containsSub, Bool.or_eq_false_iff] at h
      simp only [replaceAllGo, h.1, Bool.false_eq_true, if_false]
      rw [ih cs (by simpa using hlen) h.2]

theorem pyReplaceDel_eq_self (pat l : List Char) (h : containsSub pat l = false) :
    pyReplaceDel pat l = l := by
  unfold pyReplaceDel
  split
  · rfl
  · exact replaceAllGo_eq_self pat l.length l (Nat.le_refl _) h

theorem dropWhile_head_not {α : Type} (p : α → Bool) (l : List α) (c : α)
    (h : (l.dropWhile p).head? = some c) : p c = false := by
  induction l with
  | nil => simp [List.dropWhile] at h
  | cons a as ih =>
    rw [List.dropWhile_cons] at h
    split at h
    · exact ih h
    · rename_i hpa
      simp only [List.head?_cons, Option.some.injEq] at h
      subst h
      simpa using hpa

theorem dropWhile_suffix_decomp {α : Type} (p : α → Bool) (l : List α) :
    ∃ t, t ++ l.dropWhile p = l := by
  induction l with
  | nil => exact ⟨[], rfl⟩
  | cons a as ih =>
    rw [List.dropWhile_cons]
    split
    · obtain ⟨t, ht⟩ := ih
      exact ⟨a :: t, by rw [List.cons_append, ht]⟩
    · exact ⟨[], rfl⟩

theorem pyStrip_sub (l : List Char) (a : Char) (h : a ∈ pyStrip l) : a ∈ l := by
  unfold pyStrip at h
  rw [List.mem_reverse] at h
  have h2 := mem_of_mem_dropWhile isPyWs _ a h
  rw [List.mem_reverse] at h2
  exact mem_of_mem_dropWhile isPyWs l a h2

theorem pyStrip_getLast (l : List Char) (c : Char)
    (h : (pyStrip l).getLast? = some c) : isPyWs c = false := by
  unfold pyStrip at h
  rw [List.getLast?_reverse] at h
  exact dropWhile_head_not isPyWs _ c h

theorem pyStrip_head (l : List Char) (c : Char)
    (h : (pyStrip l).head? = some c) : isPyWs c = false := by
  unfold pyStrip at h
  rw [List.head?_reverse] at h
  obtain ⟨t, ht⟩ := dropWhile_suffix_decomp isPyWs ((l.dropWhile isPyWs).reverse)
  have hne : (l.dropWhile isPyWs).reverse.dropWhile isPyWs ≠ [] := by
    intro hx
    rw [hx] at h
    cases h
  have hgl : ((l.dropWhile isPyWs).reverse).getLast? = some c := by
    rw [← ht, List.getLast?_append_of_ne_nil t hne, h]
  rw [List.getLast?_reverse] at hgl
  exact dropWhile_head_not isPyWs l c hgl

theorem pyStrip_eq_self (l : List Char)
    (h1 : ∀ c, l.head? = some c → isPyWs c = false)
    (h2 : ∀ c, l.getLast? = some c → isPyWs c = false) :
    pyStrip l = l := by
  have hm : l.dropWhile isPyWs = l := by
    cases l with
    | nil => rfl
    | cons a as =>
      have := h1 a rfl
      rw [List.dropWhile_cons, if_neg (by simp [this])]
  have hr : l.reverse.dropWhile isPyWs = l.reverse := by
    cases hl : l.reverse with
    | nil => rfl
    | cons a as =>
      have ha : l.getLast? = some a := by
        rw [← List.head?_reverse, hl]
        rfl
      have := h2 a ha
      rw [List.dropWhile_cons, if_neg (by simp [this])]
  unfold pyStrip
  rw [hm, hr, List.reverse_reverse]

theorem noDoubleWs_cons_tail (a : Char) (l : List Char)
    (h : noDoubleWs (a :: l) = true) : noDoubleWs l = true := by
  cases l with
  | nil => rfl
  | cons b bs =>
    simp only [noDoubleWs, Bool.and_eq_true] at h
    exact h.2

theorem noDoubleWs_cons_head (a b : Char) (l : List Char)
    (h : noDoubleWs (a :: b :: l) = true) : (isPyWs a && isPyWs b) = false := by
  simp only [noDoubleWs, Bool.and_eq_true] at h
  cases hab : (isPyWs a && isPyWs b) with
  | false => rfl
  | true =>
    rw [hab] at h
    simp at h

theorem noDoubleWs_cons_of (a : Char) (l : List Char) (hl : noDoubleWs l = true)
    (hh : isPyWs a = false ∨ ∀ c, l.head? = some c → isPyWs c = false) :
    noDoubleWs (a :: l) = true := by
  cases l with
  | nil => rfl
  | cons b bs =>
    simp only [noDoubleWs, Bool.and_eq_true]
    refine ⟨?_, hl⟩
    rcases hh with hh | hh
    · simp [hh]
    · simp [hh b rfl]

theorem collapseWsGo_eq_self (l : List Char)
    (hsp : ∀ c ∈ l, isPyWs c = true → c = ' ')
    (hnd : noDoubleWs l = true) :
    collapseWsGo false l = l ∧
      ((∀ c, l.head? = some c → isPyWs c = false) → collapseWsGo true l = l) := by
  induction l with
  | nil => exact ⟨rfl, fun _ => rfl⟩
  | cons a as ih =>
    have hsp2 : ∀ c ∈ as, isPyWs c = true → c = ' ' :=
      fun c hc => hsp c (List.mem_cons_of_mem a hc)
    obtain ⟨ihf, iht⟩ := ih hsp2 (noDoubleWs_cons_tail a as hnd)
    constructor
    · by_cases hw : isPyWs a = true
      · have ha : a = ' ' := hsp a (List.mem_cons_self a as) hw
        have hhead : ∀ c, as.head? = some c → isPyWs c = false := by
          intro c hc
          cases as with
          | nil => cases hc
          | cons b bs =>
            simp only [List.head?_cons, Option.some.injEq] at hc
            rw [← hc]
            have hab := noDoubleWs_cons_head a b bs hnd
            rw [hw, Bool.true_and] at hab
            exact hab
        simp only [collapseWsGo, hw, if_true, Bool.false_eq_true, if_false]
        rw [iht hhead, ha]
      · have hwf : isPyWs a = false := by simpa using hw
        simp only [collapseWsGo, hwf, Bool.false_eq_true, if_false]
        rw [ihf]
    · intro hh
      have hw : isPyWs a = false := hh a rfl
      simp only [collapseWsGo, hw, Bool.false_eq_true, if_false]
      rw [ihf]

theorem mem_collapseWsGo (flag : Bool) (l : List Char) (c : Char)
    (h : c ∈ collapseWsGo flag l) : c = ' ' ∨ (c ∈ l ∧ isPyWs c = false) := by
  induction l generalizing flag with
  | nil => simp [collapseWsGo] at h
  | cons a as ih =>
    simp only [collapseWsGo] at h
    by_cases hw : isPyWs a = true
    · rw [if_pos hw] at h
      by_cases hf : flag = true
      · rw [if_pos hf] at h
        rcases ih true h with h1 | ⟨h1, h2⟩
        · exact Or.inl h1
        · exact Or.inr ⟨List.mem_cons_of_mem a h1, h2⟩
      · rw [if_neg hf] at h
        rcases List.mem_cons.mp h with rfl | h
        · exact Or.inl rfl
        · rcases ih true h with h1 | ⟨h1, h2⟩
          · exact Or.inl h1
          · exact Or.inr ⟨List.mem_cons_of_mem a h1, h2⟩
    · rw [if_neg hw] at h
      rcases List.mem_cons.mp h with rfl | h
      · exact Or.inr ⟨List.mem_cons_self c as, by simpa using hw⟩
      · rcases ih false h with h1 | ⟨h1, h2⟩
        · exact Or.inl h1
        · exact Or.inr ⟨List.mem_cons_of_mem a h1, h2⟩

theorem collapseWsGo_noDouble (l : List Char) :
    noDoubleWs (collapseWsGo false l) = true
    ∧ noDoubleWs (collapseWsGo true l) = true
    ∧ ∀ c, (collapseWsGo true l).head? = some c → isPyWs c = false := by
  induction l with
  | nil => exact ⟨rfl, rfl, fun c hc => by cases hc⟩
  | cons a as ih =>
    obtain ⟨ihf, iht, ihh⟩ := ih
    by_cases hw : isPyWs a = true
    · refine ⟨?_, ?_, ?_⟩
      · simp only [collapseWsGo, hw, if_true, Bool.false_eq_true, if_false]
        exact noDoubleWs_cons_of ' ' (collapseWsGo true as) iht (Or.inr ihh)
      · simp only [collapseWsGo, hw, if_true]
        exact iht
      · simp only [collapseWsGo, hw, if_true]
        exact ihh
    · have hwf : isPyWs a = false := by simpa using hw
      refine ⟨?_, ?_, ?_⟩
      · simp only [collapseWsGo, hwf, Bool.false_eq_true, if_false]
        exact noDoubleWs_cons_of a (collapseWsGo false as) ihf (Or.inl hwf)
      · simp only [collapseWsGo, hwf, Bool.false_eq_true, if_false]
        exact noDoubleWs_cons_of a (collapseWsGo false as) ihf (Or.inl hwf)
      · simp only [collapseWsGo, hwf, Bool.false_eq_true, if_false]
        intro c hc
        simp only [List.head?_cons, Option.some.injEq] at hc
        subst hc
        exact hwf

theorem collapseWsGo_head (l : List Char)
    (h : ∀ c, l.head? = some c → isPyWs c = false) :
    ∀ c, (collapseWsGo false l).head? = some c → isPyWs c = false := by
  intro c hc
  cases l with
  | nil => cases hc
  | cons a as =>
    have ha := h a rfl
    simp only [collapseWsGo, ha, Bool.false_eq_true, if_false, List.head?_cons,
      Option.some.injEq] at hc
    subst hc
    exact ha

theorem collapseWsGo_getLast (l : List Char) (c : Char)
    (hl : l.getLast? = some c) (hc : isPyWs c = false) :
    ∀ flag, (collapseWsGo flag l).getLast? = some c := by
  induction l with
  | nil => cases hl
  | cons a as ih =>
    intro flag
    cases as with
    | nil =>
      have ha : a = c := by
        simpa [List.getLast?] using hl
      subst ha
      cases flag <;>
        simp only [collapseWsGo, hc, Bool.false_eq_true, if_false] <;> rfl
    | cons b bs =>
      have hl2 : (b :: bs).getLast? = some c := by
        rwa [List.getLast?_cons_cons] at hl
      have hX : ∀ fl, (collapseWsGo fl (b :: bs)).getLast? = some c := ih hl2
      have hXne : ∀ fl, collapseWsGo fl (b :: bs) ≠ [] := by
        intro fl hnil
        have := hX fl
        rw [hnil] at this
        cases this
      have hcons : ∀ (y : Char) (fl : Bool),
          (y :: collapseWsGo fl (b :: bs)).getLast? = some c := by
        intro y fl
        cases hc2 : collapseWsGo fl (b :: bs) with
        | nil => exact absurd hc2 (hXne fl)
        | cons d ds =>
          rw [List.getLast?_cons_cons, ← hc2]
          exact hX fl
      by_cases hw : isPyWs a = true
      · cases flag with
        | true =>
          simp only [collapseWsGo, hw, if_true]
          exact hX true
        | false =>
          simp only [collapseWsGo, hw, if_true, Bool.false_eq_true, if_false]
          exact hcons ' ' true
      · simp only [collapseWsGo, hw, if_false]
        exact hcons a false

theorem canonical_tail (x : List Char) :
    (∀ c ∈ collapseWs (pyStrip (List.filter isAllowedOrWs x)),
        isAllowedOrWs c = true ∧ (isPyWs c = true → c = ' '))
    ∧ noDoubleWs (collapseWs (pyStrip (List.filter isAllowedOrWs x))) = true
    ∧ (∀ c, (collapseWs (pyStrip (List.filter isAllowedOrWs x))).head? = some c →
        isPyWs c = false)
    ∧ (∀ c, (collapseWs (pyStrip (List.filter isAllowedOrWs x))).getLast? = some c →
        isPyWs c = false) := by
  refine ⟨?_, ?_, ?_, ?_⟩
  · intro c hc
    rcases mem_collapseWsGo false _ c hc with rfl | ⟨h1, h2⟩
    · exact ⟨by decide, fun _ => rfl⟩
    · have h3 := pyStrip_sub _ c h1
      have h4 := (List.mem_filter.mp h3).2
      exact ⟨h4, fun hcon => absurd hcon (by simp [h2])⟩
  · exact (collapseWsGo_noDouble (pyStrip (List.filter isAllowedOrWs x))).1
  · exact collapseWsGo_head _ (fun c hc => pyStrip_head _ c hc)
  · intro c hc
    cases hsl : (pyStrip (List.filter isAllowedOrWs x)).getLast? with
    | none =>
      have hnil : pyStrip (List.filter isAllowedOrWs x) = [] :=
        List.getLast?_eq_none_iff.mp hsl
      rw [show collapseWs (pyStrip (List.filter isAllowedOrWs x)) =
        collapseWsGo false (pyStrip (List.filter isAllowedOrWs x)) from rfl, hnil] at hc
      cases hc
    | some c0 =>
      have hc0 := pyStrip_getLast _ c0 hsl
      have := collapseWsGo_getLast _ c0 hsl hc0 false
      rw [show collapseWs (pyStrip (List.filter isAllowedOrWs x)) =
        collapseWsGo false (pyStrip (List.filter isAllowedOrWs x)) from rfl] at hc
      rw [this] at hc
      injection hc with hc
      rw [← hc]
      exact hc0

theorem normalize_canonical (s : String) :
    (∀ c ∈ (normalize_string s).data,
        isAllowedOrWs c = true ∧ (isPyWs c = true → c = ' '))
    ∧ noDoubleWs (normalize_string s).data = true
    ∧ (∀ c, (normalize_string s).data.head? = some c → isPyWs c = false)
    ∧ (∀ c, (normalize_string s).data.getLast? = some c → isPyWs c = false) :=
  canonical_tail (noiseWords.foldl (fun acc w => pyReplaceDel w acc)
    (remParen (((s.data.map subscriptTranslateChar).map unidecodeChar).flatten.map
      asciiLowerChar)))

/-- C6 (counterexample): the normalizer is not idempotent — deleting the
noise word `"tsa"` from `"ttsasa"` creates a fresh `"tsa"` occurrence,
so one more pass deletes it again. -/
theorem normalize_string_not_idempotent :
    normalize_string (normalize_string "ttsasa") ≠ normalize_string "ttsasa" := by
  decide

/-- C6 (amended): the normalizer is idempotent on every string whose
normalization contains no residual noise phrase: if `normalize(s)` does
not contain `"tsa"` or `"incluida en venta"` as a substring, then
`normalize(normalize(s)) = normalize(s)`.  (After one pass every
character is already in the allowed set and, except for noise-phrase
occurrences recreated by the deletions themselves, every pipeline stage
is the identity on such canonical text.) -/
theorem normalize_string_idempotent_of_no_noise (s : String)
    (h1 : pyContains "tsa" (normalize_string s) = false)
    (h2 : pyContains "incluida en venta" (normalize_string s) = false) :
    normalize_string (normalize_string s) = normalize_string s := by
  obtain ⟨hmem, hnd, hhead, hlast⟩ := normalize_canonical s
  have h1' : containsSub "tsa".data (normalize_string s).data = false := h1
  have h2' : containsSub "incluida en venta".data (normalize_string s).data = false := h2
  set t := (normalize_string s).data with ht
  have hsub : t.map subscriptTranslateChar = t :=
    map_eq_self_of (fun c hc => (canonChar_facts c (hmem c hc).1).1)
  have huni : (t.map unidecodeChar).flatten = t :=
    flatten_map_eq_self_of (fun c hc => (canonChar_facts c (hmem c hc).1).2.1)
  have hlow : t.map asciiLowerChar = t :=
    map_eq_self_of (fun c hc => (canonChar_facts c (hmem c hc).1).2.2.1)
  have hparen : remParen t = t :=
    remParen_eq_self t (fun hc => absurd (hmem '(' hc).1 (by decide))
  have hn1 : pyReplaceDel "incluida en venta".data t = t := pyReplaceDel_eq_self _ _ h2'
  have hn2 : pyReplaceDel "tsa".data t = t := pyReplaceDel_eq_self _ _ h1'
  have hn3 : pyReplaceDel "no tsa".data t = t := by
    apply pyReplaceDel_eq_self
    cases hx : containsSub "no tsa".data t with
    | false => rfl
    | true =>
      have hsup : containsSub "tsa".data t = true :=
        containsSub_of_infix "tsa".data "no ".data [] t
          (by rw [show ("no ".data ++ "tsa".data ++ ([] : List Char)) =
            "no tsa".data from by decide]; exact hx)
      rw [h1'] at hsup
      cases hsup
  have hfold : noiseWords.foldl (fun acc w => pyReplaceDel w acc) t = t := by
    simp only [noiseWords, List.foldl_cons, List.foldl_nil, hn1, hn2, hn3]
  have hfil : t.filter isAllowedOrWs = t :=
    List.filter_eq_self.mpr (fun c hc => (hmem c hc).1)
  have hstrip : pyStrip t = t := pyStrip_eq_self t hhead hlast
  have hcoll : collapseWs t = t :=
    (collapseWsGo_eq_self t (fun c hc => (hmem c hc).2) hnd).1
  calc normalize_string (normalize_string s)
      = String.mk (collapseWs (pyStrip (List.filter isAllowedOrWs
          (noiseWords.foldl (fun acc w => pyReplaceDel w acc)
            (remParen (((t.map subscriptTranslateChar).map unidecodeChar).flatten.map
              asciiLowerChar)))))) := rfl
    _ = String.mk t := by
          rw [hsub, huni, hlow, hparen, hfold, hfil, hstrip, hcoll]
    _ = normalize_string s := by rw [ht]

/-- C6 (witness): idempotence applied at a concrete noise-free string. -/
theorem normalize_string_idempotent_witness :
    pyContains "tsa" (normalize_string "Portal Clientes") = false
    ∧ pyContains "incluida en venta" (normalize_string "Portal Clientes") = false
    ∧ normalize_string (normalize_string "Portal Clientes") =
        normalize_string "Portal Clientes" :=
  ⟨by decide, by decide,
   normalize_string_idempotent_of_no_noise "Portal Clientes" (by decide) (by decide)⟩
